import Mathlib

/-!
Verification of the tokenizer core of the `dsl` package (dsl/scanner.py).

The development shallowly embeds:
  * the data model (`SourceLocation`, `SourceRange`, `Token`),
  * the raw lexer (`RawScanner`): its lexical categories (the `plex` regular
    expressions at scanner.py lines 78-144), its state-machine handlers
    (`handle_newline`, `handle_indentation`, `handle_comment`,
    `handle_open_bracket`, `handle_close_bracket`, `outdent_to`, `eof`) and its
    mutable state (`indents`, `bracket_count`, `min_bracket_count`),
  * the lookahead `Scanner` (peek/read, error translation, the `require_*`
    helpers, `display_name`, `Token.__eq__`).

The `plex` library itself (pattern matching driver, state switching, the
end-of-input protocol) is not part of the repository's sources.  Its driver
behaviour is modelled from the spec: maximal-munch recognition of the lexicon's
categories, a separate indentation-scan state, and the end-of-input protocol of
spec section 4.1 ("force a final NEWLINE so the token stream always ends on a
complete logical line", then pop the indentation stack, then EOF), calibrated by
the end-to-end examples of spec section 8 (the final NEWLINE is produced only
when the input does not already end at a line boundary).  Everything else is
translated directly from dsl/scanner.py.
-/

namespace DslSpec

/-- SourceLocation (scanner.py lines 421-447): a file name (or null), a 1-based
line and a 1-based column. -/
structure SourceLocation where
  filename : Option String
  line : Nat
  column : Nat
deriving DecidableEq, Repr

/-- SourceRange (scanner.py lines 450-465): a start and an end location. -/
structure SourceRange where
  start : SourceLocation
  stop : SourceLocation
deriving DecidableEq, Repr

/-- Lexer-originated diagnostics constructed by `Scanner.peek` (scanner.py
lines 283-308): `diag.InvalidCharacter(location)` for `plex`'s
`UnrecognizedInput` and `diag.InvalidIndentation(location)` for
`IndentationError`.  The diagnostics module is not under src/; these carry
exactly the data the scanner passes to the factory. -/
inductive LexDiag where
  | invalidCharacter (location : SourceLocation)
  | invalidIndentation (location : SourceLocation)
deriving DecidableEq, Repr

/-- Python values stored in a token's `value` slot: lexeme text, the integer
indentation delta of an INDENT token, `None`, or a lexer diagnostic (for ERROR
tokens). -/
inductive Value where
  | vstr (s : String)
  | vint (n : Nat)
  | vnone
  | vdiag (d : LexDiag)
deriving DecidableEq, Repr

/-- Token (scanner.py lines 162-166): a type tag (a Python string: 'NUMBER',
'IDENT', ..., or the matched text itself for punctuation), a value, and an
optional source range (the constructor's default is None). -/
structure Token where
  type : String
  value : Value
  source_range : Option SourceRange
deriving DecidableEq, Repr

/-- Raw token triple as delivered by the plex scanner to `Scanner.peek`: the
pair `(value, text)` returned by `plex.Scanner.read` (the type is `none` for
plex's generated end-of-stream token) together with the `position()` plex
reports for it (0-based column, 1-based line). -/
structure RawTok where
  ty : Option String
  value : Value
  line : Nat
  col : Nat
deriving DecidableEq, Repr

/-- Failures of the raw lexing layer: plex's `UnrecognizedInput` and the
scanner's own `IndentationError` (scanner.py lines 481-485), each carrying the
raw position (1-based line, 0-based column) at which it was raised. -/
inductive LexFail where
  | unrecognizedInput (line col : Nat)
  | indentationError (line col : Nat)
deriving DecidableEq, Repr

/-- State of a `RawScanner` (scanner.py lines 146-159): the remaining input,
the current raw position, whether the scanner is in the 'indent' plex state,
the indentation stack (`self.indents`; the Python list's end — its top,
`indents[-1]` — is kept at the HEAD of this Lean list), the bracket counter and
its floor.  `bol` records whether the scanner sits at the beginning of a line
(used by the spec-modelled end-of-input protocol; see `normalStep`). -/
structure RawState where
  input : List Char
  line : Nat
  col : Nat
  state_indent : Bool
  indents : List Nat
  bracket_count : Nat
  min_bracket_count : Nat
  bol : Bool
deriving DecidableEq, Repr

/-- RawScanner.__init__ (scanner.py lines 146-159): indentation stack `[0]`,
bracket counter 0 in file mode and 1 in expression-only mode (with the floor
`min_bracket_count` equal to it), and file mode starts in the 'indent' state. -/
def initRaw (input : String) (expression_only : Bool) : RawState :=
  { input := input.toList
    line := 1
    col := 0
    state_indent := !expression_only
    indents := [0]
    bracket_count := if expression_only then 1 else 0
    min_bracket_count := if expression_only then 1 else 0
    bol := true }

/-- Length of the longest prefix whose characters all satisfy `p`. -/
def takeLen (p : Char → Bool) : List Char → Nat
  | [] => 0
  | c :: rest => if p c then takeLen p rest + 1 else 0

/-- Range("09") (scanner.py line 78). -/
def isDigit (c : Char) : Bool := '0' ≤ c && c ≤ '9'

/-- Range("azAZ") (scanner.py line 79). -/
def isLetter (c : Char) : Bool := ('a' ≤ c && c ≤ 'z') || ('A' ≤ c && c ≤ 'Z')

/-- Continuation characters of `ident` (scanner.py lines 116-118):
letter, underscore or digit. -/
def isIdentCont (c : Char) : Bool := isLetter c || c = '_' || isDigit c

/-- Longest-prefix length matched by `decimal_or_octal_number` (scanner.py
lines 80-88): one or more digits, optionally "." and one or more digits,
optionally "E", a mandatory sign and one or more digits; each optional part
contributes only when it matches completely (plex backs up otherwise). -/
def decimalLen (l : List Char) : Nat :=
  let d := takeLen isDigit l
  if d = 0 then 0
  else
    let frac :=
      match l.drop d with
      | '.' :: r2 => let f := takeLen isDigit r2; if f = 0 then 0 else f + 1
      | _ => 0
    let ex :=
      match l.drop (d + frac) with
      | 'E' :: sgn :: r4 =>
          if sgn = '+' ∨ sgn = '-' then
            let e := takeLen isDigit r4
            if e = 0 then 0 else e + 2
          else 0
      | _ => 0
    d + frac + ex

/-- Longest-prefix length matched by `hex_number` (scanner.py lines 89-95):
"0x" and one or more characters in Range("09azAZ") (deliberately over-broad). -/
def hexLen : List Char → Nat
  | '0' :: 'x' :: r => let h := takeLen (fun c => isDigit c || isLetter c) r
                       if h = 0 then 0 else h + 2
  | _ => 0

/-- Longest-prefix length matched by `binary_number` (scanner.py lines 96-103):
"0b" and one or more decimal digits (deliberately over-broad). -/
def binLen : List Char → Nat
  | '0' :: 'b' :: r => let b := takeLen isDigit r
                       if b = 0 then 0 else b + 2
  | _ => 0

/-- Longest prefix matched by the NUMBER alternatives (scanner.py line 132):
plex picks the longest match among the three forms. -/
def numberLen (l : List Char) : Nat := max (decimalLen l) (max (hexLen l) (binLen l))

/-- Escape set of `string_literal` (scanner.py line 111):
`Any("abcdefghijklmnopqrstuvwxyz\\\"")` — the lowercase letters, backslash and
double quote. -/
def escapeChars : List Char := "abcdefghijklmnopqrstuvwxyz\\\"".toList

/-- Recognizer for the part of `string_literal` (scanner.py lines 105-114)
after the opening quote: `Rep((Str("\\") + Any(escapeChars)) | AnyBut("\\\""))
+ Str('"')`.  Returns the number of characters consumed (closing quote
included).  The regular expression is deterministic — a backslash can only
start the escape alternative and an unescaped quote can only be the closing
quote — so this direct recognizer accepts exactly the pattern's language. -/
def stringLitBody : List Char → Option Nat
  | [] => none
  | c :: rest =>
    if c = '"' then some 1
    else if c = '\\' then
      match rest with
      | [] => none
      | c2 :: rest2 => if c2 ∈ escapeChars then (stringLitBody rest2).map (· + 2) else none
    else (stringLitBody rest).map (· + 1)

/-- Longest-prefix length matched by `string_literal` (scanner.py lines
105-114): an opening quote, the body run, a closing quote; `none` when the
pattern does not match (plex then raises UnrecognizedInput, since the pattern
has no shorter accepting prefix). -/
def matchStringLit (l : List Char) : Option Nat :=
  match l with
  | '"' :: rest => (stringLitBody rest).map (· + 1)
  | _ => none

/-- Single-character punctuation set `Any("|&^=<>*/%~+-:,.")`
(scanner.py line 121). -/
def singlePunct : List Char := "|&^=<>*/%~+-:,.".toList

/-- Longest-prefix length matched by `punct` (scanner.py lines 120-129):
the multi-character forms "==", "!=", "<=", ">=", "<<", ">>" and
plus-slash-minus win over their single-character prefixes (plex longest
match). -/
def punctLen : List Char → Nat
  | '+' :: '/' :: '-' :: _ => 3
  | '=' :: '=' :: _ => 2
  | '!' :: '=' :: _ => 2
  | '<' :: '=' :: _ => 2
  | '>' :: '=' :: _ => 2
  | '<' :: '<' :: _ => 2
  | '>' :: '>' :: _ => 2
  | c :: _ => if c ∈ singlePunct then 1 else 0
  | [] => 0

/-- Open bracket characters `Any("(\x7b[")` (scanner.py line 135). -/
def bracketOpens : List Char := ['(', '{', '[']

/-- Close bracket characters `Any(")\x7d]")` (scanner.py line 136). -/
def bracketCloses : List Char := [')', '}', ']']

/-- Position advance over a run of consumed characters: a newline moves to the
next 1-based line and resets the 0-based column (plex's cur_line/cur_line_start
bookkeeping). -/
def advancePos (line col : Nat) : List Char → Nat × Nat
  | [] => (line, col)
  | c :: rest => if c = '\n' then advancePos (line + 1) 0 rest else advancePos line (col + 1) rest

/-- RawScanner.outdent_to (scanner.py lines 71-76): pop entries while the new
level is below the top (`indents[-1]`, the head here), then flag a mismatch
when the remaining top differs from the new level.  Returns (number of pops —
one OUTDENT is produced per pop — , remaining stack, mismatch flag).  The
Python loop would fault on an empty stack; that case (unreachable from scanner
states, whose stack always retains the bottom level 0) is flagged as a
mismatch. -/
def outdentTo : List Nat → Nat → Nat × List Nat × Bool
  | [], _ => (0, [], true)
  | t :: rest, newLevel =>
    if newLevel < t then
      let r := outdentTo rest newLevel
      (r.1 + 1, r.2.1, r.2.2)
    else
      (0, t :: rest, decide (t ≠ newLevel))

/-- Outcome of one plex scan in the raw lexer: further tokens plus a successor
state, a terminal lexical failure (tokens produced by the failing action are
lost, exactly as an exception raised during `plex.Scanner.read` discards that
read's queue additions), or the final end-of-input token sequence. -/
inductive RawStepOut where
  | emit (ts : List RawTok) (s' : RawState)
  | fail (e : LexFail)
  | done (ts : List RawTok)
deriving DecidableEq, Repr

/-- NEWLINE raw token: `produce('NEWLINE', "\n")` / `return 'NEWLINE'` with
matched text "\n". -/
def newlineTok (line col : Nat) : RawTok := ⟨some "NEWLINE", .vstr "\n", line, col⟩

/-- OUTDENT raw token: `produce('OUTDENT', '')` (scanner.py line 74). -/
def outdentTok (line col : Nat) : RawTok := ⟨some "OUTDENT", .vstr "", line, col⟩

/-- EOF raw token: `produce("EOF")` (scanner.py line 69); plex supplies the
current (empty) matched text. -/
def eofTok (line col : Nat) : RawTok := ⟨some "EOF", .vstr "", line, col⟩

/-- Plex's generated end-of-stream token `(None, '')`, produced before
`RawScanner.eof` runs; `Scanner.peek` skips it (scanner.py lines 249-252). -/
def noneTok (line col : Nat) : RawTok := ⟨none, .vstr "", line, col⟩

/-- One scan in the 'indent' plex state (scanner.py lines 141-143): the single
pattern `Rep(Str(" ")) + Opt(Str("\n"))` feeds `handle_indentation`
(scanner.py lines 27-41).  A run of spaces followed directly by a newline is a
blank line: emit only a NEWLINE and stay in the 'indent' state.  Otherwise
compare the measured width with the stack top: push and emit INDENT with the
numeric delta when greater, call `outdent_to` when smaller (an indentation
mismatch aborts the scan carrying the scan's start position), emit nothing when
equal; in all three cases `begin('')` returns to the normal state. -/
def indentStep (s : RawState) : RawStepOut :=
  let spaces := takeLen (fun c => c = ' ') s.input
  match s.input.drop spaces with
  | '\n' :: rest2 =>
    .emit [newlineTok s.line s.col] { s with input := rest2, line := s.line + 1, col := 0 }
  | _ =>
    let currentLevel := s.indents.headD 0
    if currentLevel < spaces then
      .emit [⟨some "INDENT", .vint (spaces - currentLevel), s.line, s.col⟩]
        { s with input := s.input.drop spaces, col := s.col + spaces,
                 indents := spaces :: s.indents, state_indent := false }
    else if spaces < currentLevel then
      let r := outdentTo s.indents spaces
      if r.2.2 then .fail (.indentationError s.line s.col)
      else
        .emit (List.replicate r.1 (outdentTok s.line s.col))
          { s with input := s.input.drop spaces, col := s.col + spaces,
                   indents := r.2.1, state_indent := false }
    else
      .emit [] { s with input := s.input.drop spaces, col := s.col + spaces,
                        state_indent := false }

/-- One scan in the normal plex state, dispatching on the lexicon
(scanner.py lines 131-144).  The categories' start characters are disjoint, so
plex's longest-match/first-listed choice reduces to a dispatch on the first
character plus a per-category longest match.

At end of input plex emits its `(None, '')` token and then calls
`RawScanner.eof` (scanner.py lines 61-69): with balanced brackets it produces a
final NEWLINE ("always end on a newline") — modelled from the spec: only when
the stream is not already at a line boundary, per the end-to-end examples of
spec section 8 — then `outdent_to(0)` and the EOF token; with an open bracket
it produces the bare EOF token directly. -/
def normalStep (s : RawState) : RawStepOut :=
  match s.input with
  | [] =>
    if s.bracket_count = 0 then
      let r := outdentTo s.indents 0
      if r.2.2 then .fail (.indentationError s.line s.col)
      else .done ([noneTok s.line s.col]
            ++ (if s.bol then [] else [newlineTok s.line s.col])
            ++ List.replicate r.1 (outdentTok s.line s.col)
            ++ [eofTok s.line s.col])
    else
      .done [noneTok s.line s.col, eofTok s.line s.col]
  | c :: rest =>
    if isDigit c then
      let n := numberLen s.input
      .emit [⟨some "NUMBER", .vstr (String.mk (s.input.take n)), s.line, s.col⟩]
        { s with input := s.input.drop n, col := s.col + n, bol := false }
    else if c = '"' then
      match matchStringLit s.input with
      | some n =>
        let p := advancePos s.line s.col (s.input.take n)
        .emit [⟨some "STRINGLIT", .vstr (String.mk (s.input.take n)), s.line, s.col⟩]
          { s with input := s.input.drop n, line := p.1, col := p.2, bol := false }
      | none => .fail (.unrecognizedInput s.line s.col)
    else if isLetter c || c = '_' then
      let n := takeLen isIdentCont rest + 1
      .emit [⟨some "IDENT", .vstr (String.mk (s.input.take n)), s.line, s.col⟩]
        { s with input := s.input.drop n, col := s.col + n, bol := false }
    else if c ∈ bracketOpens then
      .emit [⟨some (String.mk [c]), .vstr (String.mk [c]), s.line, s.col⟩]
        { s with input := rest, col := s.col + 1,
                 bracket_count := s.bracket_count + 1, bol := false }
    else if c ∈ bracketCloses then
      .emit [⟨some (String.mk [c]), .vstr (String.mk [c]), s.line, s.col⟩]
        { s with input := rest, col := s.col + 1,
                 bracket_count := if s.min_bracket_count < s.bracket_count then
                   s.bracket_count - 1 else s.bracket_count,
                 bol := false }
    else if c = '\n' then
      if s.bracket_count = 0 then
        .emit [newlineTok s.line s.col]
          { s with input := rest, line := s.line + 1, col := 0,
                   state_indent := true, bol := true }
      else
        .emit [] { s with input := rest, line := s.line + 1, col := 0, bol := true }
    else if punctLen s.input ≠ 0 then
      let n := punctLen s.input
      .emit [⟨some (String.mk (s.input.take n)), .vstr (String.mk (s.input.take n)),
              s.line, s.col⟩]
        { s with input := s.input.drop n, col := s.col + n, bol := false }
    else if c = ' ' then
      let n := takeLen (fun ch => ch = ' ') s.input
      .emit [] { s with input := s.input.drop n, col := s.col + n }
    else if c = '#' then
      let bodyL := takeLen (fun ch => !(ch = '\n')) rest
      let n := 1 + bodyL + (if rest.drop bodyL = [] then 0 else 1)
      let p := advancePos s.line s.col (s.input.take n)
      if s.bracket_count = 0 then
        .emit [newlineTok s.line s.col]
          { s with input := s.input.drop n, line := p.1, col := p.2,
                   state_indent := true, bol := true }
      else
        .emit [] { s with input := s.input.drop n, line := p.1, col := p.2, bol := true }
    else .fail (.unrecognizedInput s.line s.col)

/-- One plex scan of the raw lexer: the 'indent' state has only the
indentation pattern, the normal state has the full lexicon. -/
def rawStep (s : RawState) : RawStepOut :=
  if s.state_indent then indentStep s else normalStep s

/-- Strictly decreasing measure of the scan loop: every `emit` consumes input
or leaves the 'indent' state. -/
def stepFuel (s : RawState) : Nat :=
  2 * s.input.length + (if s.state_indent then 1 else 0)

/-- Iterated raw scanning: collect every raw token plus the terminal failure,
if any.  The fuel only bounds recursion; `scan` supplies more fuel than
`stepFuel` of its start state, which suffices (`rawStep_emit_fuel`,
`scanLoop_fuel_irrelevant`). -/
def scanLoop : Nat → RawState → List RawTok × Option LexFail
  | 0, _ => ([], none)
  | fuel + 1, s =>
    match rawStep s with
    | .emit ts s' => let r := scanLoop fuel s'; (ts ++ r.1, r.2)
    | .fail e => ([], some e)
    | .done ts => (ts, none)

/-- Complete raw token stream of an input, as the lookahead scanner will pull
it. -/
def scan (input : String) (expression_only : Bool) : List RawTok × Option LexFail :=
  scanLoop (stepFuel (initRaw input expression_only) + 1) (initRaw input expression_only)

/-- Reachability of a raw-lexer state during a file-mode scan, together with
the raw tokens emitted so far. -/
inductive RawReach (input : String) : RawState → List RawTok → Prop where
  | init : RawReach input (initRaw input false) []
  | step {s acc ts s'} : RawReach input s acc → rawStep s = .emit ts s' →
      RawReach input s' (acc ++ ts)

/-- Number of raw tokens with the given type tag. -/
def countTy (ty : String) (ts : List RawTok) : Nat :=
  (ts.filter (fun t => t.ty = some ty)).length

/-- Token.display_name (scanner.py lines 168-181).  The four structural types
map to fixed strings; the fallback branch is `return token.value`, and the
name `token` is not defined anywhere in scope (the method's receiver is
`self`), so reaching it raises a Python NameError at runtime. -/
inductive PyExc where
  | nameError
deriving DecidableEq, Repr

/-- Token.display_name (scanner.py lines 168-181), with the undefined-name
fallback branch modelled as the NameError it raises. -/
def display_name (t : Token) : Except PyExc String :=
  if t.type = "NEWLINE" then .ok "newline"
  else if t.type = "INDENT" then .ok "indent"
  else if t.type = "OUTDENT" then .ok "outdent"
  else if t.type = "EOF" then .ok "end of file"
  else .error .nameError

/-- Operands `Token.__eq__` (scanner.py lines 183-189) distinguishes: a plain
2-tuple, another Token, or any other Python object. -/
inductive PyObj where
  | tuple (ty : String) (v : Value)
  | token (t : Token)
  | other
deriving DecidableEq, Repr

/-- Token.__eq__ (scanner.py lines 183-189): against a tuple, compare
`(self.type, self.value)` with it; against another Token, compare the
`(type, value)` pairs; anything else is unequal.  Value comparison is Python
`==` (structural on strings, ints and None; diagnostics compare only to
themselves). -/
def tokenEq (self : Token) (o : PyObj) : Bool :=
  match o with
  | .tuple ty v => self.type = ty && self.value = v
  | .token t => self.type = t.type && self.value = t.value
  | .other => false

/-- State of the lookahead `Scanner` (scanner.py lines 204-229).  The raw
scanner is represented by its complete raw token stream (`scan` output): the
tokens not yet pulled plus the terminal failure that raw reading will signal
after them, if any.  `peeked`, `last_token` and `force_eof` are the instance
fields of the same names. -/
structure ScanState where
  raw : List RawTok
  rawFail : Option LexFail
  name : Option String
  peeked : Option Token
  last_token : Token
  force_eof : Bool
deriving DecidableEq, Repr

/-- Initial `last_token`: the BEGIN sentinel anchored at line 1, column 1
(scanner.py lines 210-228). -/
def beginToken (name : Option String) : Token :=
  { type := "BEGIN"
    value := .vnone
    source_range := some ⟨⟨name, 1, 1⟩, ⟨name, 1, 1⟩⟩ }

/-- Scanner.__init__ (scanner.py lines 206-229). -/
def initScanner (input : String) (name : Option String) (expression_only : Bool) :
    ScanState :=
  let r := scan input expression_only
  { raw := r.1
    rawFail := r.2
    name := name
    peeked := none
    last_token := beginToken name
    force_eof := false }

/-- Length of a raw value as used for the token's end column (scanner.py lines
260-263): `len(raw_peeked[1])`.  Only string-valued raw tokens reach this (the
INDENT token's integer value is excluded by the structural-token test). -/
def valueLen : Value → Nat
  | .vstr s => s.length
  | _ => 0

/-- Token types whose computed range is zero-width (scanner.py line 260). -/
def structuralTys : List String := ["NEWLINE", "INDENT", "OUTDENT"]

/-- Conversion of a raw token into a `Token` with its computed range
(scanner.py lines 254-282): the token is assumed to lie on one line, its end
column is start column plus text length, and plex's 0-based columns become
1-based. -/
def mkTok (name : Option String) (rt : RawTok) : Token :=
  let ty := rt.ty.getD ""
  let len := if ty ∈ structuralTys then 0 else valueLen rt.value
  { type := ty
    value := rt.value
    source_range := some ⟨⟨name, rt.line, rt.col + 1⟩, ⟨name, rt.line, rt.col + len + 1⟩⟩ }

/-- Translation of a raw lexing failure into the diagnostic attached to the
ERROR token (scanner.py lines 283-308): plex's 0-based column becomes
1-based. -/
def diagOf (name : Option String) : LexFail → LexDiag
  | .unrecognizedInput line col => .invalidCharacter ⟨name, line, col + 1⟩
  | .indentationError line col => .invalidIndentation ⟨name, line, col + 1⟩

/-- The raw-read-failed path of Scanner.peek (scanner.py lines 283-308): cache
an ERROR token carrying the diagnostic — the Token constructor is called
without a source_range, so the ERROR token's range is None — and set
`force_eof`.  When the raw stream is exhausted without a failure (reading past
the EOF token, which would restart the raw lexer's end-of-input handling; no
claim exercises it) a plain EOF token is produced. -/
def fromFail (s : ScanState) : Token × ScanState :=
  match s.rawFail with
  | some f =>
    let t : Token := { type := "ERROR", value := .vdiag (diagOf s.name f), source_range := none }
    (t, { s with peeked := some t, force_eof := true })
  | none =>
    let t : Token := { type := "EOF", value := .vstr "", source_range := none }
    (t, { s with peeked := some t })

/-- Scanner.peek (scanner.py lines 237-311): return the cached token if one is
pending; under `force_eof` synthesize an EOF token at the last token's range;
otherwise pull one raw token (skipping plex's generated end-of-stream token),
convert and cache it, translating raw failures into a cached ERROR token plus
`force_eof`. -/
def peek (s : ScanState) : Token × ScanState :=
  match s.peeked with
  | some t => (t, s)
  | none =>
    if s.force_eof then
      let t : Token := { type := "EOF", value := .vnone, source_range := s.last_token.source_range }
      (t, { s with peeked := some t })
    else
      match s.raw with
      | rt :: rest =>
        if rt.ty = none then
          match rest with
          | rt2 :: rest2 =>
            let t := mkTok s.name rt2
            (t, { s with raw := rest2, peeked := some t })
          | [] => fromFail { s with raw := [] }
        else
          let t := mkTok s.name rt
          (t, { s with raw := rest, peeked := some t })
      | [] => fromFail s

/-- Scanner.read (scanner.py lines 231-235): peek, clear the lookahead slot,
record the token as `last_token` and return it. -/
def read (s : ScanState) : Token × ScanState :=
  let r := peek s
  (r.1, { r.2 with peeked := none, last_token := r.1 })

/-- Scanner.next_is_punct (scanner.py lines 339-341): `token[0] == symbol and
token[1] == symbol` via Token.__getitem__ (type and value). -/
def nextIsPunct (s : ScanState) (symbol : String) : Bool × ScanState :=
  let r := peek s
  (r.1.type = symbol && r.1.value = .vstr symbol, r.2)

/-- Scanner.next_is_keyword (scanner.py lines 343-345). -/
def nextIsKeyword (s : ScanState) (name : String) : Bool × ScanState :=
  let r := peek s
  (r.1.type = "IDENT" && r.1.value = .vstr name, r.2)

/-- Scanner.next_is_newline (scanner.py lines 347-348). -/
def nextIsNewline (s : ScanState) : Bool × ScanState :=
  let r := peek s
  (r.1.type = "NEWLINE", r.2)

/-- Scanner.next_is_indent (scanner.py lines 350-351). -/
def nextIsIndent (s : ScanState) : Bool × ScanState :=
  let r := peek s
  (r.1.type = "INDENT", r.2)

/-- Scanner.next_is_outdent (scanner.py lines 353-354). -/
def nextIsOutdent (s : ScanState) : Bool × ScanState :=
  let r := peek s
  (r.1.type = "OUTDENT", r.2)

/-- Scanner.next_is_eof (scanner.py lines 356-357). -/
def nextIsEof (s : ScanState) : Bool × ScanState :=
  let r := peek s
  (r.1.type = "EOF", r.2)

/-- Exceptions the require helpers can raise: `raise self.peek().value`
(carrying the peeked token's value — the lexical diagnostic of an ERROR token)
from `raise_if_next_is_error` (scanner.py lines 362-364), or a
`diag.UnexpectedToken(wanted_token, got_token)`. -/
inductive Exc where
  | raised (v : Value)
  | unexpectedToken (wanted got : Token)
deriving DecidableEq, Repr

/-- Scanner.require_punct (scanner.py lines 366-373). -/
def requirePunct (s : ScanState) (symbol : String) : Except Exc (Token × ScanState) :=
  let r := nextIsPunct s symbol
  if r.1 then .ok (read r.2)
  else
    let q := peek r.2
    if q.1.type = "ERROR" then .error (.raised q.1.value)
    else .error (.unexpectedToken ⟨"PUNCT", .vstr symbol, none⟩ q.1)

/-- Scanner.require_keyword (scanner.py lines 375-382). -/
def requireKeyword (s : ScanState) (name : String) : Except Exc (Token × ScanState) :=
  let r := nextIsKeyword s name
  if r.1 then .ok (read r.2)
  else
    let q := peek r.2
    if q.1.type = "ERROR" then .error (.raised q.1.value)
    else .error (.unexpectedToken ⟨"IDENT", .vstr name, none⟩ q.1)

/-- Scanner.require_indent (scanner.py lines 384-391). -/
def requireIndent (s : ScanState) : Except Exc (Token × ScanState) :=
  let r := nextIsIndent s
  if r.1 then .ok (read r.2)
  else
    let q := peek r.2
    if q.1.type = "ERROR" then .error (.raised q.1.value)
    else .error (.unexpectedToken ⟨"INDENT", .vint 4, none⟩ q.1)

/-- Scanner.require_outdent (scanner.py lines 393-400). -/
def requireOutdent (s : ScanState) : Except Exc (Token × ScanState) :=
  let r := nextIsOutdent s
  if r.1 then .ok (read r.2)
  else
    let q := peek r.2
    if q.1.type = "ERROR" then .error (.raised q.1.value)
    else .error (.unexpectedToken ⟨"OUTDENT", .vint 4, none⟩ q.1)

/-- Scanner.require_newline (scanner.py lines 402-409). -/
def requireNewline (s : ScanState) : Except Exc (Token × ScanState) :=
  let r := nextIsNewline s
  if r.1 then .ok (read r.2)
  else
    let q := peek r.2
    if q.1.type = "ERROR" then .error (.raised q.1.value)
    else .error (.unexpectedToken ⟨"NEWLINE", .vstr "\n", none⟩ q.1)

/-- Scanner.require_eof (scanner.py lines 411-418). -/
def requireEof (s : ScanState) : Except Exc (Token × ScanState) :=
  let r := nextIsEof s
  if r.1 then .ok (read r.2)
  else
    let q := peek r.2
    if q.1.type = "ERROR" then .error (.raised q.1.value)
    else .error (.unexpectedToken ⟨"EOF", .vnone, none⟩ q.1)

/-- A caller-visible operation on the lookahead scanner. -/
inductive ScanOp where
  | opPeek
  | opRead
deriving DecidableEq, Repr

/-- Tokens returned by a sequence of peek/read calls. -/
def runOps : ScanState → List ScanOp → List Token
  | _, [] => []
  | s, .opPeek :: rest => let r := peek s; r.1 :: runOps r.2 rest
  | s, .opRead :: rest => let r := read s; r.1 :: runOps r.2 rest

/-- The (type, value) pairs of the first `n` tokens returned by repeated
read() calls. -/
def readTrace (s : ScanState) : Nat → List (String × Value)
  | 0 => []
  | n + 1 => let r := read s; (r.1.type, r.1.value) :: readTrace r.2 n

/-- One iteration unit of the `string_literal` pattern's `Rep` (scanner.py
lines 106-112): either a backslash followed by one character of the escape set
`Any("abcdefghijklmnopqrstuvwxyz\\\"")`, or a single character that is neither
backslash nor quote (`AnyBut("\\\"")`). -/
def isStrUnit : List Char → Bool
  | [c] => !(c = '\\') && !(c = '"')
  | [c1, c2] => c1 = '\\' && c2 ∈ escapeChars
  | _ => false

/-- The synthetic EOF token `Scanner.peek` fabricates under `force_eof`
(scanner.py lines 241-245), carrying the given last-token range. -/
def eofSynth (r : Option SourceRange) : Token :=
  { type := "EOF", value := .vnone, source_range := r }

/-- Well-formedness of the indentation stack (spec section 3): non-empty,
strictly descending from the head (the top) and ending in the bottom level 0. -/
def StackOk (l : List Nat) : Prop :=
  l ≠ [] ∧ List.Chain' (fun a b => b < a) l ∧ l.getLast? = some 0

/- ## Supporting lemmas -/

/-- Characterization of `outdent_to`: it pops exactly the stack entries above
the first one not exceeding the new level, and flags a mismatch when the
remaining top is not the new level. -/
theorem outdentTo_eq (l : List Nat) (n : Nat) :
    outdentTo l n = ((l.takeWhile (fun t => decide (n < t))).length,
      l.dropWhile (fun t => decide (n < t)),
      match l.dropWhile (fun t => decide (n < t)) with
      | [] => true
      | t :: _ => decide (t ≠ n)) := by
  induction l with
  | nil => rfl
  | cons t rest ih =>
    by_cases h : n < t
    · simp [outdentTo, h, List.takeWhile_cons, List.dropWhile_cons, ih]
    · simp [outdentTo, h, List.takeWhile_cons, List.dropWhile_cons]

theorem countTy_append (ty : String) (l₁ l₂ : List RawTok) :
    countTy ty (l₁ ++ l₂) = countTy ty l₁ + countTy ty l₂ := by
  simp [countTy, List.filter_append]

theorem countTy_replicate (ty : String) (k : Nat) (t : RawTok) :
    countTy ty (List.replicate k t) = if t.ty = some ty then k else 0 := by
  simp only [countTy, List.filter_replicate]
  split <;> simp_all

/-- Dropping a prefix cannot disturb a last element the predicate rejects. -/
theorem dropWhile_getLast?_of_neg {p : Nat → Bool} {l : List Nat} {a : Nat}
    (hl : l.getLast? = some a) (ha : p a = false) :
    (l.dropWhile p).getLast? = some a := by
  induction l with
  | nil => simp at hl
  | cons b rest ih =>
    cases rest with
    | nil =>
      simp at hl
      subst hl
      simp [List.dropWhile, ha]
    | cons c t =>
      rw [List.getLast?_cons_cons] at hl
      rw [List.dropWhile]
      cases hpb : p b
      · simpa [List.getLast?_cons_cons] using hl
      · exact ih hl

/-- Every branch of `peek` caches the token it returns. -/
theorem peek_peeked (s : ScanState) : (peek s).2.peeked = some (peek s).1 := by
  unfold peek fromFail
  rcases hp : s.peeked with _ | t
  · cases hf : s.force_eof
    · rcases hraw : s.raw with _ | ⟨rt, rest⟩
      · cases hfail : s.rawFail <;> simp [hp, hf, hraw, hfail]
      · by_cases hty : rt.ty = none
        · rcases hrest : rest with _ | ⟨rt2, rest2⟩
          · cases hfail : s.rawFail <;> simp [hp, hf, hraw, hty, hrest, hfail]
          · simp [hp, hf, hraw, hty, hrest]
        · simp [hp, hf, hraw, hty]
    · simp [hp, hf]
  · simp [hp]

/-- Repeating `peek` without a `read` returns the cached token and leaves the
state unchanged. -/
theorem peek_idem (s : ScanState) : peek (peek s).2 = ((peek s).1, (peek s).2) := by
  conv_lhs => rw [peek]
  rw [peek_peeked s]

/-- Evaluation of the body recognizer at a closing quote. -/
theorem stringLitBody_close (l : List Char) : stringLitBody ('"' :: l) = some 1 := by
  rw [stringLitBody.eq_def]
  dsimp only
  rw [if_pos rfl]

/-- Evaluation of the body recognizer at an escape unit. -/
theorem stringLitBody_esc (c : Char) (hc : c ∈ escapeChars) (l : List Char) :
    stringLitBody ('\\' :: c :: l) = (stringLitBody l).map (· + 2) := by
  rw [stringLitBody.eq_def]
  dsimp only
  rw [if_neg (by decide), if_pos rfl, if_pos hc]

/-- Evaluation of the body recognizer at a plain character. -/
theorem stringLitBody_plain (c : Char) (h1 : ¬c = '\\') (h2 : ¬c = '"') (l : List Char) :
    stringLitBody (c :: l) = (stringLitBody l).map (· + 1) := by
  rw [stringLitBody.eq_def]
  dsimp only
  rw [if_neg h2, if_neg h1]

/-- A backslash-escaped body of well-formed units followed by the closing
quote is consumed completely by the string-literal body recognizer. -/
theorem stringLitBody_units (units : List (List Char)) (rest : List Char)
    (h : ∀ u ∈ units, isStrUnit u = true) :
    stringLitBody (units.flatten ++ '"' :: rest) = some (units.flatten.length + 1) := by
  induction units with
  | nil => simpa using stringLitBody_close rest
  | cons u us ih =>
    have hu := h u (by simp)
    have hrec := ih (fun v hv => h v (by simp [hv]))
    rcases u with _ | ⟨c1, u'⟩
    · simp [isStrUnit] at hu
    rcases u' with _ | ⟨c2, u''⟩
    · have hc : ¬(c1 = '\\') ∧ ¬(c1 = '"') := by simpa [isStrUnit] using hu
      simp only [List.flatten_cons, List.cons_append, List.nil_append, List.append_assoc]
      rw [stringLitBody_plain c1 hc.1 hc.2, hrec]
      simp only [Option.map_some', List.length_cons]
    rcases u'' with _ | ⟨c3, u3⟩
    · have hc : c1 = '\\' ∧ c2 ∈ escapeChars := by simpa [isStrUnit] using hu
      simp only [List.flatten_cons, List.cons_append, List.nil_append, List.append_assoc]
      rw [hc.1, stringLitBody_esc c2 hc.2, hrec]
      simp only [Option.map_some', List.length_cons]
    · simp [isStrUnit] at hu

/- ## Claim theorems -/

/-- C9: for every Token whose type is none of NEWLINE, INDENT, OUTDENT or EOF,
`display_name` raises a NameError (its fallback branch references the
undefined name `token`); for the four structural types it returns the fixed
human-readable strings. -/
theorem c9_display_name (t : Token) :
    (t.type ∉ (["NEWLINE", "INDENT", "OUTDENT", "EOF"] : List String) →
      display_name t = .error .nameError) ∧
    (t.type = "NEWLINE" → display_name t = .ok "newline") ∧
    (t.type = "INDENT" → display_name t = .ok "indent") ∧
    (t.type = "OUTDENT" → display_name t = .ok "outdent") ∧
    (t.type = "EOF" → display_name t = .ok "end of file") := by
  unfold display_name
  refine ⟨?_, ?_, ?_, ?_, ?_⟩ <;> intro h <;> simp_all

/-- Witness for C9 at concrete tokens: an IDENT token's display name raises
NameError, an EOF token's is "end of file". -/
theorem c9_witness :
    display_name ⟨"IDENT", .vstr "a", none⟩ = .error .nameError ∧
    display_name ⟨"EOF", .vnone, none⟩ = .ok "end of file" :=
  ⟨(c9_display_name ⟨"IDENT", .vstr "a", none⟩).1 (by decide),
   (c9_display_name ⟨"EOF", .vnone, none⟩).2.2.2.2 (by decide)⟩

/-- C10: Token equality compares only the (type, value) pair: two tokens with
equal type and value but different (or null) ranges are equal, a token equals
the plain (type, value) 2-tuple, and the result against any operand is
independent of the token's source range. -/
theorem c10_token_equality (ty : String) (v : Value) (r₁ r₂ : Option SourceRange)
    (o : PyObj) :
    tokenEq ⟨ty, v, r₁⟩ (.token ⟨ty, v, r₂⟩) = true ∧
    tokenEq ⟨ty, v, r₁⟩ (.tuple ty v) = true ∧
    tokenEq ⟨ty, v, r₁⟩ o = tokenEq ⟨ty, v, r₂⟩ o := by
  refine ⟨?_, ?_, ?_⟩ <;> cases o <;> simp [tokenEq]

/-- C8: scanning "a = 1\n" in file mode and reading repeatedly yields exactly
IDENT "a", punctuation "=", NUMBER "1", one NEWLINE and EOF, with no further
NEWLINE, INDENT or OUTDENT tokens. -/
theorem c8_end_to_end :
    readTrace (initScanner "a = 1\n" none false) 5 =
      [("IDENT", .vstr "a"), ("=", .vstr "="), ("NUMBER", .vstr "1"),
       ("NEWLINE", .vstr "\n"), ("EOF", .vstr "")] := by
  decide

/-- Counterexample to C4: a backslash escape admits only lowercase letters,
backslash and quote (scanner.py line 111), not an arbitrary character.  On the
claim's permissive-form input with the escaped uppercase letter A —
quote, backslash, A, quote — the string-literal pattern does not match and the
raw lexer signals an unrecognized-input failure instead of producing a
STRINGLIT token. -/
theorem c4_counterexample :
    matchStringLit ['"', '\\', 'A', '"'] = none ∧
    rawStep { input := ['"', '\\', 'A', '"'], line := 1, col := 0,
              state_indent := false, indents := [0], bracket_count := 0,
              min_bracket_count := 0, bol := true } =
      .fail (.unrecognizedInput 1 0) := by
  constructor <;> decide

/-- Dispatch of the normal-state scan at a double quote: only the
string-literal pattern can match there. -/
theorem normalStep_string (s : RawState) (irest : List Char)
    (hi : s.input = '"' :: irest) :
    normalStep s =
      match matchStringLit s.input with
      | some n =>
        .emit [⟨some "STRINGLIT", .vstr (String.mk (s.input.take n)), s.line, s.col⟩]
          { s with input := s.input.drop n,
                   line := (advancePos s.line s.col (s.input.take n)).1,
                   col := (advancePos s.line s.col (s.input.take n)).2, bol := false }
      | none => .fail (.unrecognizedInput s.line s.col) := by
  have h1 : isDigit '"' = false := by decide
  conv_lhs => rw [normalStep.eq_def, hi]
  simp only [h1, Bool.false_eq_true, if_false, reduceIte]
  rw [← hi]

/-- C4 as amended: for every string consisting of a double quote, a run of
units — each either a backslash followed by one character among the lowercase
letters, backslash and double quote, or a single character that is neither
backslash nor double quote — and a closing double quote, the raw lexer
recognizes the whole string as one STRINGLIT token. -/
theorem c4_string_literal (s : RawState) (units : List (List Char)) (rest : List Char)
    (hmode : s.state_indent = false)
    (hunits : ∀ u ∈ units, isStrUnit u = true)
    (hinput : s.input = '"' :: (units.flatten ++ '"' :: rest)) :
    rawStep s = .emit
      [⟨some "STRINGLIT", .vstr (String.mk ('"' :: (units.flatten ++ ['"']))), s.line, s.col⟩]
      { s with input := rest,
               line := (advancePos s.line s.col ('"' :: (units.flatten ++ ['"']))).1,
               col := (advancePos s.line s.col ('"' :: (units.flatten ++ ['"']))).2,
               bol := false } := by
  have hbody := stringLitBody_units units rest hunits
  have hmatch : matchStringLit s.input = some (units.flatten.length + 2) := by
    rw [hinput, matchStringLit, hbody]
    rfl
  have htake : s.input.take (units.flatten.length + 2) = '"' :: (units.flatten ++ ['"']) := by
    rw [hinput]
    rw [show units.flatten.length + 2 = units.flatten.length + 1 + 1 from rfl]
    rw [List.take_succ_cons, List.take_append 1]
    rfl
  have hdrop : s.input.drop (units.flatten.length + 2) = rest := by
    rw [hinput]
    rw [show units.flatten.length + 2 = units.flatten.length + 1 + 1 from rfl]
    rw [List.drop_succ_cons, List.drop_append 1]
    rfl
  rw [rawStep, hmode]
  simp only [Bool.false_eq_true, if_false]
  rw [normalStep_string s _ hinput, hmatch]
  dsimp only
  rw [htake, hdrop, hmode]

/-- Witness for C4's amended statement at the concrete literal consisting of
quote, backslash-n escape, the letter x and the closing quote. -/
theorem c4_witness :
    rawStep { input := ['"', '\\', 'n', 'x', '"'], line := 1, col := 0,
              state_indent := false, indents := [0], bracket_count := 0,
              min_bracket_count := 0, bol := true } =
      .emit [⟨some "STRINGLIT", .vstr (String.mk ['"', '\\', 'n', 'x', '"']), 1, 0⟩]
        { input := [], line := 1, col := 5, state_indent := false, indents := [0],
          bracket_count := 0, min_bracket_count := 0, bol := false } := by
  have h := c4_string_literal
    { input := ['"', '\\', 'n', 'x', '"'], line := 1, col := 0,
      state_indent := false, indents := [0], bracket_count := 0,
      min_bracket_count := 0, bol := true }
    [['\\', 'n'], ['x']] [] rfl (by decide) rfl
  simpa using h

/-- C5: for a logical line whose measured width is below the stack top, the
raw lexer pops exactly the levels exceeding the width — one OUTDENT per pop —
and then signals an inconsistent-indentation failure carrying the scan
position precisely when the remaining top is not the measured width, emitting
the OUTDENT tokens and no failure otherwise. -/
theorem c5_outdent (s : RawState) (w k : Nat) (stack2 : List Nat) (mm : Bool)
    (hmode : s.state_indent = true)
    (hw : w = takeLen (fun c => c = ' ') s.input)
    (hnb : (s.input.drop w).head? ≠ some '\n')
    (hlt : w < s.indents.headD 0)
    (hout : outdentTo s.indents w = (k, stack2, mm)) :
    k = (s.indents.takeWhile (fun t => decide (w < t))).length ∧
    stack2 = s.indents.dropWhile (fun t => decide (w < t)) ∧
    (mm = true ↔ stack2.head? ≠ some w) ∧
    (mm = true → rawStep s = .fail (.indentationError s.line s.col)) ∧
    (mm = false → rawStep s = .emit (List.replicate k (outdentTok s.line s.col))
      { s with input := s.input.drop w, col := s.col + w,
               indents := stack2, state_indent := false }) := by
  have heq := outdentTo_eq s.indents w
  rw [hout] at heq
  obtain ⟨hk, hst, hm⟩ : k = _ ∧ stack2 = _ ∧ mm = _ := by
    refine ⟨congrArg Prod.fst heq, ?_, ?_⟩
    · exact congrArg (fun p => p.2.1) heq
    · exact congrArg (fun p => p.2.2) heq
  have hstep : rawStep s = indentStep s := by rw [rawStep, if_pos hmode]
  refine ⟨hk, hst, ?_, ?_, ?_⟩
  · rw [hm, hst]
    rcases s.indents.dropWhile (fun t => decide (w < t)) with _ | ⟨t, tl⟩ <;> simp
  · intro hmm
    rw [hstep, indentStep.eq_def]
    dsimp only
    rw [← hw]
    split
    · rename_i rest2 heq2
      exact absurd (by rw [heq2]; rfl) hnb
    · rw [if_neg (by omega), if_pos hlt, hout]
      dsimp only
      rw [hmm]
      rfl
  · intro hmm
    rw [hstep, indentStep.eq_def]
    dsimp only
    rw [← hw]
    split
    · rename_i rest2 heq2
      exact absurd (by rw [heq2]; rfl) hnb
    · rw [if_neg (by omega), if_pos hlt, hout]
      dsimp only
      rw [hmm]
      rfl

/-- Witness for C5 at two concrete indentation-scan states: a dedent to an
unrecorded width 2 over stack top 4 (with bottom 0) fails with the
inconsistent-indentation position, and a dedent to the recorded width 2 over
stack 4, 2, 0 emits exactly one OUTDENT. -/
theorem c5_witness :
    rawStep { input := [' ', ' ', 'z'], line := 3, col := 0, state_indent := true,
              indents := [4, 0], bracket_count := 0, min_bracket_count := 0,
              bol := true } = .fail (.indentationError 3 0) ∧
    rawStep { input := [' ', ' ', 'z'], line := 3, col := 0, state_indent := true,
              indents := [4, 2, 0], bracket_count := 0, min_bracket_count := 0,
              bol := true } =
      .emit (List.replicate 1 (outdentTok 3 0))
        { input := ['z'], line := 3, col := 2, state_indent := false,
          indents := [2, 0], bracket_count := 0, min_bracket_count := 0,
          bol := true } := by
  constructor
  · exact (c5_outdent
      { input := [' ', ' ', 'z'], line := 3, col := 0, state_indent := true,
        indents := [4, 0], bracket_count := 0, min_bracket_count := 0, bol := true }
      2 1 [0] true rfl (by decide) (by decide) (by decide) (by decide)).2.2.2.1 rfl
  · have h := (c5_outdent
      { input := [' ', ' ', 'z'], line := 3, col := 0, state_indent := true,
        indents := [4, 2, 0], bracket_count := 0, min_bracket_count := 0, bol := true }
      2 1 [2, 0] false rfl (by decide) (by decide) (by decide) (by decide)).2.2.2.2 rfl
    simpa using h

/-- C6: while the bracket depth is positive, a raw newline in the normal state
is consumed silently — no NEWLINE, INDENT or OUTDENT token (indeed no token at
all) is produced and indentation scanning is not entered; with the depth back
at 0 a raw newline produces a NEWLINE token and re-enters the indentation-scan
state; and a close bracket above the floor decrements the depth while being
returned as an ordinary token. -/
theorem c6_bracket_newlines (s : RawState) (rest : List Char) :
    (s.state_indent = false → s.input = '\n' :: rest → 0 < s.bracket_count →
      rawStep s = .emit []
        { s with input := rest, line := s.line + 1, col := 0, bol := true }) ∧
    (s.state_indent = false → s.input = '\n' :: rest → s.bracket_count = 0 →
      rawStep s = .emit [newlineTok s.line s.col]
        { s with input := rest, line := s.line + 1, col := 0,
                 state_indent := true, bol := true }) ∧
    (∀ c, s.state_indent = false → s.input = c :: rest → c ∈ bracketCloses →
      s.min_bracket_count < s.bracket_count →
      rawStep s = .emit [⟨some (String.mk [c]), .vstr (String.mk [c]), s.line, s.col⟩]
        { s with input := rest, col := s.col + 1,
                 bracket_count := s.bracket_count - 1, bol := false }) := by
  refine ⟨?_, ?_, ?_⟩
  · intro hmode hi hb
    rw [rawStep, hmode]
    simp only [Bool.false_eq_true, if_false]
    conv_lhs => rw [normalStep.eq_def, hi]
    simp +decide only [reduceIte]
    rw [if_neg (by omega), hmode]
  · intro hmode hi hb
    rw [rawStep, hmode]
    simp only [Bool.false_eq_true, if_false]
    conv_lhs => rw [normalStep.eq_def, hi]
    simp +decide only [reduceIte]
    rw [if_pos hb]
  · intro c hmode hi hc hbr
    rw [rawStep, hmode]
    simp only [Bool.false_eq_true, if_false]
    conv_lhs => rw [normalStep.eq_def, hi]
    simp only [bracketCloses, List.mem_cons, List.not_mem_nil, or_false] at hc
    rcases hc with rfl | rfl | rfl <;>
      · simp +decide only [reduceIte]
        rw [if_pos hbr, hmode]

/-- Witness for C6 at concrete states: a newline under one open bracket is
silent, a newline at depth 0 yields NEWLINE and indentation scanning, and a
close bracket decrements the depth. -/
theorem c6_witness :
    rawStep { input := ['\n', 'x'], line := 1, col := 3, state_indent := false,
              indents := [0], bracket_count := 1, min_bracket_count := 0,
              bol := false } =
      .emit [] { input := ['x'], line := 2, col := 0, state_indent := false,
                 indents := [0], bracket_count := 1, min_bracket_count := 0,
                 bol := true } ∧
    rawStep { input := ['\n', 'x'], line := 1, col := 3, state_indent := false,
              indents := [0], bracket_count := 0, min_bracket_count := 0,
              bol := false } =
      .emit [newlineTok 1 3]
        { input := ['x'], line := 2, col := 0, state_indent := true,
          indents := [0], bracket_count := 0, min_bracket_count := 0,
          bol := true } ∧
    rawStep { input := [')', '\n'], line := 1, col := 2, state_indent := false,
              indents := [0], bracket_count := 1, min_bracket_count := 0,
              bol := false } =
      .emit [⟨some (String.mk [')']), .vstr (String.mk [')']), 1, 2⟩]
        { input := ['\n'], line := 1, col := 3, state_indent := false,
          indents := [0], bracket_count := 0, min_bracket_count := 0,
          bol := false } := by
  refine ⟨?_, ?_, ?_⟩
  · exact (c6_bracket_newlines
      { input := ['\n', 'x'], line := 1, col := 3, state_indent := false,
        indents := [0], bracket_count := 1, min_bracket_count := 0, bol := false }
      ['x']).1 rfl rfl (by decide)
  · exact (c6_bracket_newlines
      { input := ['\n', 'x'], line := 1, col := 3, state_indent := false,
        indents := [0], bracket_count := 0, min_bracket_count := 0, bol := false }
      ['x']).2.1 rfl rfl rfl
  · exact (c6_bracket_newlines
      { input := [')', '\n'], line := 1, col := 2, state_indent := false,
        indents := [0], bracket_count := 1, min_bracket_count := 0, bol := false }
      ['\n']).2.2 ')' rfl rfl (by decide) (by decide)

/-- A cons cell does not disturb the optional last element of a non-empty
tail. -/
theorem getLast?_cons_of_ne (a : Nat) (l : List Nat) (h : l ≠ []) :
    (a :: l).getLast? = l.getLast? := by
  cases l with
  | nil => exact absurd rfl h
  | cons b t => simp [List.getLast?_cons_cons]

/-- The punctuation matcher never consumes more than three characters. -/
theorem punctLen_le (l : List Char) : punctLen l ≤ 3 := by
  rw [punctLen.eq_def]
  split <;> (try split) <;> omega

/-- A one-character string is none of the structural type tags. -/
theorem stringMk_one_ne (c : Char) (t : String) (h : t.length ≠ 1) :
    String.mk [c] ≠ t :=
  fun he => h (by rw [← he]; rfl)

/-- Strings of different lengths differ. -/
theorem stringMk_ne_of_length (l : List Char) (t : String) (h : l.length ≠ t.length) :
    String.mk l ≠ t := by
  intro he
  have := congrArg String.length he
  simp only [String.length] at this
  exact h this

/-- A token count is zero when no listed token carries the type. -/
theorem countTy_zero (ty : String) (ts : List RawTok)
    (h : ∀ t ∈ ts, t.ty ≠ some ty) : countTy ty ts = 0 := by
  simp only [countTy, List.length_eq_zero]
  rw [List.filter_eq_nil_iff]
  intro t ht
  simp [h t ht]

/-- Popping the stack through `outdent_to` without a mismatch preserves its
well-formedness and pops exactly the counted entries. -/
theorem outdentTo_stackok (l : List Nat) (n k : Nat) (stack2 : List Nat)
    (hok : StackOk l) (hr : outdentTo l n = (k, stack2, false)) :
    StackOk stack2 ∧ stack2.length + k = l.length := by
  have heq := outdentTo_eq l n
  rw [hr] at heq
  have hk : k = (l.takeWhile (fun t => decide (n < t))).length :=
    congrArg Prod.fst heq
  have hst : stack2 = l.dropWhile (fun t => decide (n < t)) :=
    congrArg (fun p => p.2.1) heq
  have hmm : False = (match l.dropWhile (fun t => decide (n < t)) with
      | [] => true
      | t :: _ => decide (t ≠ n)) → True := fun _ => trivial
  obtain ⟨hne, hch, hl⟩ := hok
  refine ⟨⟨?_, ?_, ?_⟩, ?_⟩
  · -- a mismatch flag of false rules out the empty drop
    have hm2 : (false : Bool) = (match l.dropWhile (fun t => decide (n < t)) with
        | [] => true
        | t :: _ => decide (t ≠ n)) := congrArg (fun p => p.2.2) heq
    rw [hst]
    rcases hd : l.dropWhile (fun t => decide (n < t)) with _ | ⟨t, tl⟩
    · rw [hd] at hm2
      simp at hm2
    · simp
  · rw [hst]
    exact hch.suffix (List.dropWhile_suffix _)
  · rw [hst]
    exact dropWhile_getLast?_of_neg hl (by simp)
  · rw [hst, hk]
    have := congrArg List.length (List.takeWhile_append_dropWhile
      (p := fun t => decide (n < t)) (l := l))
    simp only [List.length_append] at this
    omega

/-- An `emit` scan in the 'indent' state preserves stack well-formedness, and
changes the stack depth by exactly the INDENT/OUTDENT tokens it emits. -/
theorem indentStep_emit_stack (s : RawState) (ts : List RawTok) (s2 : RawState)
    (h : indentStep s = .emit ts s2) (hok : StackOk s.indents) :
    StackOk s2.indents ∧
    s2.indents.length + countTy "OUTDENT" ts = s.indents.length + countTy "INDENT" ts := by
  rw [indentStep.eq_def] at h
  dsimp only at h
  split at h
  · -- blank line: only a NEWLINE
    injection h with h1 h2
    subst h1
    subst h2
    exact ⟨hok, by simp [countTy, newlineTok]⟩
  · split at h
    · -- deeper: push and emit one INDENT
      rename_i hgt
      injection h with h1 h2
      subst h1
      subst h2
      obtain ⟨hne, hch, hl⟩ := hok
      constructor
      · refine ⟨by simp, ?_, ?_⟩
        · rw [List.chain'_cons']
          refine ⟨?_, hch⟩
          intro y hy
          rcases hi : s.indents with _ | ⟨hd, tl⟩
          · exact absurd hi hne
          · rw [hi] at hy hgt
            simp only [List.head?_cons, Option.mem_def, Option.some.injEq] at hy
            subst hy
            simpa using hgt
        · rw [getLast?_cons_of_ne _ _ hne]
          exact hl
      · simp [countTy]
    · split at h
      · -- shallower: call outdent_to
        rcases hr : outdentTo s.indents (takeLen (fun c => decide (c = ' ')) s.input)
          with ⟨k, stack2, mm⟩
        rw [hr] at h
        dsimp only at h
        cases mm
        · simp only [Bool.false_eq_true, if_false] at h
          injection h with h1 h2
          subst h1
          subst h2
          obtain ⟨hok2, hlen⟩ := outdentTo_stackok _ _ _ _ hok hr
          refine ⟨hok2, ?_⟩
          rw [countTy_replicate, countTy_replicate]
          simp +decide only [outdentTok, if_true, if_false]
          omega
        · simp at h
      · -- equal: nothing emitted
        injection h with h1 h2
        subst h1
        subst h2
        exact ⟨hok, by simp [countTy]⟩

/-- An `emit` scan in the normal state leaves the indentation stack unchanged
and emits no INDENT or OUTDENT token. -/
theorem normalStep_emit_stack (s : RawState) (ts : List RawTok) (s2 : RawState)
    (h : normalStep s = .emit ts s2) :
    s2.indents = s.indents ∧ countTy "OUTDENT" ts = 0 ∧ countTy "INDENT" ts = 0 := by
  rw [normalStep.eq_def] at h
  rcases hi : s.input with _ | ⟨c, irest⟩
  · rw [hi] at h
    dsimp only at h
    split at h
    · split at h <;> simp only [reduceCtorEq] at h
    · simp only [reduceCtorEq] at h
  · rw [hi] at h
    dsimp only at h
    by_cases h1 : isDigit c = true
    · rw [if_pos h1] at h
      injection h with ht hs
      subst ht
      subst hs
      exact ⟨rfl, by simp [countTy], by simp [countTy]⟩
    rw [if_neg h1] at h
    by_cases h2 : c = '"'
    · subst h2
      rw [if_pos rfl] at h
      rcases hm : matchStringLit ('"' :: irest) with _ | n
      · rw [hm] at h
        simp only [reduceCtorEq] at h
      · rw [hm] at h
        dsimp only at h
        injection h with ht hs
        subst ht
        subst hs
        exact ⟨rfl, by simp [countTy], by simp [countTy]⟩
    rw [if_neg h2] at h
    by_cases h3 : (isLetter c || decide (c = '_')) = true
    · rw [if_pos h3] at h
      injection h with ht hs
      subst ht
      subst hs
      exact ⟨rfl, by simp [countTy], by simp [countTy]⟩
    rw [if_neg h3] at h
    by_cases h4 : c ∈ bracketOpens
    · rw [if_pos h4] at h
      injection h with ht hs
      subst ht
      subst hs
      refine ⟨rfl, ?_, ?_⟩ <;>
        · apply countTy_zero
          intro t ht
          simp only [List.mem_singleton] at ht
          subst ht
          simp only [ne_eq, Option.some.injEq]
          exact stringMk_one_ne c _ (by decide)
    rw [if_neg h4] at h
    by_cases h5 : c ∈ bracketCloses
    · rw [if_pos h5] at h
      injection h with ht hs
      subst ht
      subst hs
      refine ⟨rfl, ?_, ?_⟩ <;>
        · apply countTy_zero
          intro t ht
          simp only [List.mem_singleton] at ht
          subst ht
          simp only [ne_eq, Option.some.injEq]
          exact stringMk_one_ne c _ (by decide)
    rw [if_neg h5] at h
    by_cases h6 : c = '\n'
    · rw [if_pos h6] at h
      by_cases h6a : s.bracket_count = 0
      · rw [if_pos h6a] at h
        injection h with ht hs
        subst ht
        subst hs
        exact ⟨rfl, by simp [countTy, newlineTok], by simp [countTy, newlineTok]⟩
      · rw [if_neg h6a] at h
        injection h with ht hs
        subst ht
        subst hs
        exact ⟨rfl, by simp [countTy], by simp [countTy]⟩
    rw [if_neg h6] at h
    by_cases h7 : punctLen (c :: irest) ≠ 0
    · rw [if_pos h7] at h
      injection h with ht hs
      subst ht
      subst hs
      have hlen : ((c :: irest).take (punctLen (c :: irest))).length ≤ 3 := by
        have := punctLen_le (c :: irest)
        simp only [List.length_take]
        omega
      refine ⟨rfl, ?_, ?_⟩ <;>
        · apply countTy_zero
          intro t ht
          simp only [List.mem_singleton] at ht
          subst ht
          simp only [ne_eq, Option.some.injEq]
          apply stringMk_ne_of_length
          intro hx
          rw [hx] at hlen
          exact absurd hlen (by decide)
    rw [if_neg h7] at h
    by_cases h8 : c = ' '
    · rw [if_pos h8] at h
      injection h with ht hs
      subst ht
      subst hs
      exact ⟨rfl, by simp [countTy], by simp [countTy]⟩
    rw [if_neg h8] at h
    by_cases h9 : c = '#'
    · rw [if_pos h9] at h
      by_cases h9a : s.bracket_count = 0
      · rw [if_pos h9a] at h
        injection h with ht hs
        subst ht
        subst hs
        exact ⟨rfl, by simp [countTy, newlineTok], by simp [countTy, newlineTok]⟩
      · rw [if_neg h9a] at h
        injection h with ht hs
        subst ht
        subst hs
        exact ⟨rfl, by simp [countTy], by simp [countTy]⟩
    rw [if_neg h9] at h
    simp only [reduceCtorEq] at h

/-- Any `emit` scan preserves stack well-formedness and changes the stack
depth exactly by the emitted INDENTs minus OUTDENTs. -/
theorem rawStep_emit_stack (s : RawState) (ts : List RawTok) (s2 : RawState)
    (h : rawStep s = .emit ts s2) (hok : StackOk s.indents) :
    StackOk s2.indents ∧
    s2.indents.length + countTy "OUTDENT" ts = s.indents.length + countTy "INDENT" ts := by
  rw [rawStep] at h
  split at h
  · exact indentStep_emit_stack s ts s2 h hok
  · obtain ⟨hst, ho, hi⟩ := normalStep_emit_stack s ts s2 h
    rw [hst, ho, hi]
    exact ⟨hok, rfl⟩

/-- Invariant carried by every reachable file-mode scanner state. -/
theorem rawReach_stackok (input : String) (s : RawState) (acc : List RawTok)
    (h : RawReach input s acc) :
    StackOk s.indents ∧
    countTy "INDENT" acc + 1 = countTy "OUTDENT" acc + s.indents.length := by
  induction h with
  | init =>
    refine ⟨⟨by simp [initRaw], by simp [initRaw], by simp [initRaw]⟩, ?_⟩
    simp [initRaw, countTy]
  | step hreach hstep ih =>
    obtain ⟨hok, hcount⟩ := ih
    obtain ⟨hok2, hdelta⟩ := rawStep_emit_stack _ _ _ hstep hok
    refine ⟨hok2, ?_⟩
    rw [countTy_append, countTy_append]
    omega

/-- C2: at every point of a file-mode scan the indentation stack is non-empty
and strictly ascending from bottom to top with 0 at the bottom, and the number
of INDENT tokens emitted so far exceeds the OUTDENTs by exactly the stack
depth minus one. -/
theorem c2_indentation_invariant (input : String) (s : RawState) (acc : List RawTok)
    (h : RawReach input s acc) :
    s.indents ≠ [] ∧
    List.Chain' (fun a b => a < b) s.indents.reverse ∧
    s.indents.reverse.head? = some 0 ∧
    countTy "INDENT" acc + 1 = countTy "OUTDENT" acc + s.indents.length := by
  obtain ⟨⟨hne, hch, hl⟩, hcount⟩ := rawReach_stackok input s acc h
  refine ⟨hne, ?_, ?_, hcount⟩
  · rw [List.chain'_reverse]
    exact hch
  · rw [List.head?_reverse]
    exact hl

/-- Witness for C2 after one concrete scan step of the input "x:". -/
theorem c2_witness :
    ([0] : List Nat) ≠ [] ∧
    List.Chain' (fun a b => a < b) ([0] : List Nat).reverse ∧
    ([0] : List Nat).reverse.head? = some 0 ∧
    countTy "INDENT" ([] ++ []) + 1 = countTy "OUTDENT" ([] ++ []) + ([0] : List Nat).length := by
  have h := c2_indentation_invariant "x:" _ _
    (RawReach.step RawReach.init (by decide :
      rawStep (initRaw "x:" false) = .emit []
        { input := ['x', ':'], line := 1, col := 0, state_indent := false,
          indents := [0], bracket_count := 0, min_bracket_count := 0, bol := true }))
  simpa using h

/-- The token built from a raw token never has the ERROR type unless the raw
type tag itself is the ERROR tag. -/
theorem mkTok_type_ne_error (name : Option String) (rt : RawTok)
    (h : rt.ty ≠ some "ERROR") : (mkTok name rt).type ≠ "ERROR" := by
  rcases ht : rt.ty with _ | x
  · simp [mkTok, ht]
  · simp only [mkTok, ht, Option.getD_some]
    intro hx
    exact h (by rw [ht, hx])

/-- When a fresh peek yields an ERROR token, the `force_eof` flag has been
set: the only branch of `peek` producing an ERROR type is the raw-failure
translation. -/
theorem peek_error_force_eof (s : ScanState) (hp : s.peeked = none)
    (hraw : ∀ rt ∈ s.raw, rt.ty ≠ some "ERROR")
    (herr : (peek s).1.type = "ERROR") :
    (peek s).2.force_eof = true := by
  obtain ⟨raw, rawFail, nm, pk, lt, fe⟩ := s
  dsimp only at hp hraw
  subst hp
  unfold peek at herr ⊢
  dsimp only at herr ⊢
  cases fe with
  | true => simp at herr
  | false =>
    simp only [Bool.false_eq_true, if_false] at herr ⊢
    rcases raw with _ | ⟨rt, rtl⟩
    · unfold fromFail at herr ⊢
      dsimp only at herr ⊢
      rcases rawFail with _ | f
      · simp at herr
      · rfl
    · dsimp only at herr ⊢
      by_cases hty : rt.ty = none
      · rw [if_pos hty] at herr ⊢
        rcases rtl with _ | ⟨rt2, rtl2⟩
        · unfold fromFail at herr ⊢
          dsimp only at herr ⊢
          rcases rawFail with _ | f
          · simp at herr
          · rfl
        · dsimp only at herr ⊢
          exact absurd herr (mkTok_type_ne_error nm rt2 (hraw rt2 (by simp)))
      · rw [if_neg hty] at herr ⊢
        exact absurd herr (mkTok_type_ne_error nm rt (hraw rt (by simp)))

/-- Forced-EOF states keep yielding the same synthetic EOF token for every
further peek or read. -/
theorem runOps_after_eof (r : Option SourceRange) (ops : List ScanOp) :
    ∀ s : ScanState, s.force_eof = true → s.last_token.source_range = r →
    (s.peeked = none ∨ s.peeked = some (eofSynth r)) →
    runOps s ops = List.replicate ops.length (eofSynth r) := by
  induction ops with
  | nil =>
    intro s _ _ _
    rfl
  | cons op rest ih =>
    intro s hf hr hp
    have hpk : peek s = (eofSynth r, { s with peeked := some (eofSynth r) }) ∨
               peek s = (eofSynth r, s) := by
      rcases hp with hp | hp
      · left
        unfold peek
        rw [hp]
        dsimp only
        rw [hf, if_pos rfl, hr]
        rfl
      · right
        unfold peek
        rw [hp]
    cases op with
    | opPeek =>
      rcases hpk with hpk | hpk
      · simp only [runOps, hpk, List.length_cons, List.replicate_succ]
        exact congrArg _ (ih _ hf hr (by right; rfl))
      · simp only [runOps, hpk, List.length_cons, List.replicate_succ]
        exact congrArg _ (ih _ hf hr hp)
    | opRead =>
      rcases hpk with hpk | hpk <;>
        · simp only [runOps, read, hpk, List.length_cons, List.replicate_succ]
          exact congrArg _ (ih _ hf rfl (by left; rfl))

/-- A cached lookahead token is returned unchanged, without moving the state,
any number of times. -/
theorem runOps_peeked (t : Token) (n : Nat) (ops : List ScanOp) :
    ∀ s : ScanState, s.peeked = some t →
    runOps s (List.replicate n .opPeek ++ ops) = List.replicate n t ++ runOps s ops := by
  induction n with
  | zero =>
    intro s _
    rfl
  | succ m ih =>
    intro s hp
    have hpk : peek s = (t, s) := by
      unfold peek
      rw [hp]
    simp only [List.replicate_succ, List.cons_append, runOps, hpk, List.append_eq]
    rw [ih s hp]

/-- Reading after a peek consumes exactly the peeked token. -/
theorem read_after_peek (s : ScanState) :
    read (peek s).2 =
      ((peek s).1, { (peek s).2 with peeked := none, last_token := (peek s).1 }) := by
  unfold read
  rw [peek_idem]

/-- Counterexample to C1: on the file-mode input "@" the first peek yields an
ERROR token, and a second peek made before the ERROR token is consumed yields
that ERROR token again — not a token of type EOF as the claim demands of every
subsequent call. -/
theorem c1_counterexample :
    (peek (initScanner "@" none false)).1.type = "ERROR" ∧
    (peek (peek (initScanner "@" none false)).2).1.type = "ERROR" ∧
    (peek (peek (initScanner "@" none false)).2).1.type ≠ "EOF" := by
  decide

/-- C1 as amended: once a fresh peek yields an ERROR token, every call up to
and including the read that consumes it returns that same ERROR token, and
every call after that read returns a synthetic EOF token — never any further
real token.  The raw-stream hypothesis records that the raw lexer itself never
produces a token tagged ERROR (the tag is introduced only by the lookahead
scanner's failure translation). -/
theorem c1_post_error (s : ScanState)
    (hp : s.peeked = none)
    (hraw : ∀ rt ∈ s.raw, rt.ty ≠ some "ERROR")
    (herr : (peek s).1.type = "ERROR")
    (n : Nat) (rest : List ScanOp) :
    runOps (peek s).2 (List.replicate n .opPeek ++ .opRead :: rest) =
      List.replicate (n + 1) (peek s).1 ++
        List.replicate rest.length (eofSynth (peek s).1.source_range) := by
  have hfe : (peek s).2.force_eof = true := peek_error_force_eof s hp hraw herr
  rw [runOps_peeked (peek s).1 n (.opRead :: rest) (peek s).2 (peek_peeked s)]
  simp only [runOps, read_after_peek]
  rw [runOps_after_eof ((peek s).1.source_range) rest _ (by simpa using hfe) rfl
    (by left; rfl)]
  simp [List.replicate_succ']

/-- Witness for C1's amended statement on the concrete input "@": one repeated
peek, the consuming read, then a further peek and read. -/
theorem c1_witness :
    runOps (peek (initScanner "@" none false)).2
        (List.replicate 1 .opPeek ++ .opRead :: [.opPeek, .opRead]) =
      List.replicate 2 (peek (initScanner "@" none false)).1 ++
        List.replicate 2 (eofSynth (peek (initScanner "@" none false)).1.source_range) :=
  c1_post_error (initScanner "@" none false) (by decide) (by decide) (by decide)
    1 [.opPeek, .opRead]

/-- Counterexample to C3: on the file-mode input "@", after the ERROR token is
consumed by read(), the synthetic EOF token carries no source range at all —
the ERROR token was cached without a range — whereas the last successfully
produced token (the BEGIN sentinel) does carry a well-defined range. -/
theorem c3_counterexample :
    (read (initScanner "@" none false)).1.type = "ERROR" ∧
    (peek (read (initScanner "@" none false)).2).1.type = "EOF" ∧
    (peek (read (initScanner "@" none false)).2).1.source_range = none ∧
    (initScanner "@" none false).last_token.source_range ≠ none := by
  decide

/-- C3 as amended: under `force_eof`, a fresh peek synthesizes an EOF token
whose source range equals the range of the token most recently recorded by
read(); since the ERROR token carries no source range and is consumed before
the first synthetic EOF is produced, that range is null from then on. -/
theorem c3_forced_eof_range (s : ScanState) (hf : s.force_eof = true)
    (hp : s.peeked = none) :
    (peek s).1 = eofSynth s.last_token.source_range := by
  unfold peek
  rw [hp]
  dsimp only
  rw [hf, if_pos rfl]
  rfl

/-- Witness for C3's amended statement at the post-consumption state of the
input "@". -/
theorem c3_witness :
    (peek (read (initScanner "@" none false)).2).1 =
      eofSynth (read (initScanner "@" none false)).2.last_token.source_range :=
  c3_forced_eof_range (read (initScanner "@" none false)).2 (by decide) (by decide)

/-- C7: each require helper consumes and returns the peeked token when its
predicate holds; otherwise it raises the pending lexical error (the peeked
ERROR token's carried diagnostic) with priority, and only raises the generic
unexpected-token diagnostic — carrying the wanted and observed tokens — when
the peeked token is not an ERROR token. -/
theorem c7_require_helpers (s : ScanState) (symbol kw : String) :
    (((peek s).1.type = symbol ∧ (peek s).1.value = .vstr symbol) →
        requirePunct s symbol = .ok (read (peek s).2)) ∧
    (¬((peek s).1.type = symbol ∧ (peek s).1.value = .vstr symbol) →
      ((peek s).1.type = "ERROR" →
        requirePunct s symbol = .error (.raised (peek s).1.value)) ∧
      ((peek s).1.type ≠ "ERROR" →
        requirePunct s symbol =
          .error (.unexpectedToken ⟨"PUNCT", .vstr symbol, none⟩ (peek s).1))) ∧
    (((peek s).1.type = "IDENT" ∧ (peek s).1.value = .vstr kw) →
        requireKeyword s kw = .ok (read (peek s).2)) ∧
    (¬((peek s).1.type = "IDENT" ∧ (peek s).1.value = .vstr kw) →
      ((peek s).1.type = "ERROR" →
        requireKeyword s kw = .error (.raised (peek s).1.value)) ∧
      ((peek s).1.type ≠ "ERROR" →
        requireKeyword s kw =
          .error (.unexpectedToken ⟨"IDENT", .vstr kw, none⟩ (peek s).1))) ∧
    ((peek s).1.type = "INDENT" → requireIndent s = .ok (read (peek s).2)) ∧
    ((peek s).1.type ≠ "INDENT" →
      ((peek s).1.type = "ERROR" →
        requireIndent s = .error (.raised (peek s).1.value)) ∧
      ((peek s).1.type ≠ "ERROR" →
        requireIndent s =
          .error (.unexpectedToken ⟨"INDENT", .vint 4, none⟩ (peek s).1))) ∧
    ((peek s).1.type = "OUTDENT" → requireOutdent s = .ok (read (peek s).2)) ∧
    ((peek s).1.type ≠ "OUTDENT" →
      ((peek s).1.type = "ERROR" →
        requireOutdent s = .error (.raised (peek s).1.value)) ∧
      ((peek s).1.type ≠ "ERROR" →
        requireOutdent s =
          .error (.unexpectedToken ⟨"OUTDENT", .vint 4, none⟩ (peek s).1))) ∧
    ((peek s).1.type = "NEWLINE" → requireNewline s = .ok (read (peek s).2)) ∧
    ((peek s).1.type ≠ "NEWLINE" →
      ((peek s).1.type = "ERROR" →
        requireNewline s = .error (.raised (peek s).1.value)) ∧
      ((peek s).1.type ≠ "ERROR" →
        requireNewline s =
          .error (.unexpectedToken ⟨"NEWLINE", .vstr "\n", none⟩ (peek s).1))) ∧
    ((peek s).1.type = "EOF" → requireEof s = .ok (read (peek s).2)) ∧
    ((peek s).1.type ≠ "EOF" →
      ((peek s).1.type = "ERROR" →
        requireEof s = .error (.raised (peek s).1.value)) ∧
      ((peek s).1.type ≠ "ERROR" →
        requireEof s =
          .error (.unexpectedToken ⟨"EOF", .vnone, none⟩ (peek s).1))) := by
  refine ⟨?_, ?_, ?_, ?_, ?_, ?_, ?_, ?_, ?_, ?_, ?_, ?_⟩
  · intro hpred
    unfold requirePunct nextIsPunct
    rw [if_pos (by simp [hpred.1, hpred.2])]
  · intro hpred
    unfold requirePunct nextIsPunct
    rw [if_neg (by simpa using hpred)]
    rw [peek_idem]
    constructor
    · intro herr
      rw [if_pos herr]
    · intro herr
      rw [if_neg herr]
  · intro hpred
    unfold requireKeyword nextIsKeyword
    rw [if_pos (by simp [hpred.1, hpred.2])]
  · intro hpred
    unfold requireKeyword nextIsKeyword
    rw [if_neg (by simpa using hpred)]
    rw [peek_idem]
    constructor
    · intro herr
      rw [if_pos herr]
    · intro herr
      rw [if_neg herr]
  · intro hpred
    unfold requireIndent nextIsIndent
    rw [if_pos (by simp [hpred])]
  · intro hpred
    unfold requireIndent nextIsIndent
    rw [if_neg (by simpa using hpred)]
    rw [peek_idem]
    constructor
    · intro herr
      rw [if_pos herr]
    · intro herr
      rw [if_neg herr]
  · intro hpred
    unfold requireOutdent nextIsOutdent
    rw [if_pos (by simp [hpred])]
  · intro hpred
    unfold requireOutdent nextIsOutdent
    rw [if_neg (by simpa using hpred)]
    rw [peek_idem]
    constructor
    · intro herr
      rw [if_pos herr]
    · intro herr
      rw [if_neg herr]
  · intro hpred
    unfold requireNewline nextIsNewline
    rw [if_pos (by simp [hpred])]
  · intro hpred
    unfold requireNewline nextIsNewline
    rw [if_neg (by simpa using hpred)]
    rw [peek_idem]
    constructor
    · intro herr
      rw [if_pos herr]
    · intro herr
      rw [if_neg herr]
  · intro hpred
    unfold requireEof nextIsEof
    rw [if_pos (by simp [hpred])]
  · intro hpred
    unfold requireEof nextIsEof
    rw [if_neg (by simpa using hpred)]
    rw [peek_idem]
    constructor
    · intro herr
      rw [if_pos herr]
    · intro herr
      rw [if_neg herr]

/-- Witness for C7 on concrete scanners: a matching keyword is consumed, a
mismatched punctuation raises the unexpected-token diagnostic, and a failed
require on a pending ERROR token raises the carried lexical diagnostic
instead. -/
theorem c7_witness :
    requireKeyword (initScanner "a = 1\n" none false) "a" =
      .ok (read (peek (initScanner "a = 1\n" none false)).2) ∧
    requirePunct (initScanner "a = 1\n" none false) "=" =
      .error (.unexpectedToken ⟨"PUNCT", .vstr "=", none⟩
        (peek (initScanner "a = 1\n" none false)).1) ∧
    requireEof (initScanner "@" none false) =
      .error (.raised (peek (initScanner "@" none false)).1.value) :=
  ⟨(c7_require_helpers (initScanner "a = 1\n" none false) "=" "a").2.2.1 (by decide),
   ((c7_require_helpers (initScanner "a = 1\n" none false) "=" "a").2.1
      (by decide)).2 (by decide),
   ((c7_require_helpers (initScanner "@" none false) "=" "a").2.2.2.2.2.2.2.2.2.2.2
      (by decide)).1 (by decide)⟩

/-- A digit-led input gives the decimal pattern a non-empty match. -/
theorem decimalLen_pos (c : Char) (l : List Char) (hc : isDigit c = true) :
    1 ≤ decimalLen (c :: l) := by
  rw [decimalLen]
  dsimp only
  rw [takeLen, if_pos hc]
  rw [if_neg (by omega)]
  omega

/-- A successful string-literal match consumes at least the opening quote. -/
theorem matchStringLit_pos (l : List Char) (n : Nat) (h : matchStringLit l = some n) :
    1 ≤ n := by
  rw [matchStringLit.eq_def] at h
  split at h
  · rcases hb : stringLitBody _ with _ | m
    · rw [hb] at h
      simp at h
    · rw [hb] at h
      simp only [Option.map_some', Option.some.injEq] at h
      omega
  · simp at h

/-- Every `emit` scan strictly decreases the loop measure: it consumes input
or leaves the 'indent' state. -/
theorem rawStep_emit_fuel (s : RawState) (ts : List RawTok) (s2 : RawState)
    (h : rawStep s = .emit ts s2) : stepFuel s2 < stepFuel s := by
  rw [rawStep] at h
  split at h
  · -- 'indent' state
    rename_i hsi
    rw [indentStep.eq_def] at h
    dsimp only at h
    split at h
    · -- blank line
      rename_i rest2 heq
      injection h with h1 h2
      subst h2
      have hlen := congrArg List.length heq
      simp only [List.length_drop, List.length_cons] at hlen
      simp +decide only [stepFuel, hsi, if_true, if_false]
      omega
    · -- width comparison: all three outcomes leave the 'indent' state
      split at h
      · injection h with h1 h2
        subst h2
        simp +decide only [stepFuel, hsi, List.length_drop, if_true, if_false]
        omega
      · split at h
        · rcases hr : outdentTo s.indents (takeLen (fun c => decide (c = ' ')) s.input)
            with ⟨k, stack2, mm⟩
          rw [hr] at h
          dsimp only at h
          cases mm
          · simp only [Bool.false_eq_true, if_false] at h
            injection h with h1 h2
            subst h2
            simp +decide only [stepFuel, hsi, List.length_drop, if_true, if_false]
            omega
          · simp +decide only [reduceCtorEq, if_true] at h
        · injection h with h1 h2
          subst h2
          simp +decide only [stepFuel, hsi, List.length_drop, if_true, if_false]
          omega
  · -- normal state
    rename_i hsi
    rw [normalStep.eq_def] at h
    rcases hi : s.input with _ | ⟨c, irest⟩
    · rw [hi] at h
      dsimp only at h
      split at h
      · split at h <;> simp only [reduceCtorEq] at h
      · simp only [reduceCtorEq] at h
    · rw [hi] at h
      dsimp only at h
      have hflag : (if s.state_indent then 1 else 0) = 0 := by
        simp [hsi]
      by_cases h1 : isDigit c = true
      · rw [if_pos h1] at h
        injection h with ht hs
        subst hs
        have hpos : 1 ≤ numberLen (c :: irest) :=
          le_trans (decimalLen_pos c irest h1) (le_max_left _ _)
        simp only [stepFuel, hsi, hi, List.length_drop, List.length_cons]
        simp only [Bool.false_eq_true, if_false]
        omega
      rw [if_neg h1] at h
      by_cases h2 : c = '"'
      · subst h2
        rw [if_pos rfl] at h
        rcases hm : matchStringLit ('"' :: irest) with _ | n
        · rw [hm] at h
          simp only [reduceCtorEq] at h
        · rw [hm] at h
          dsimp only at h
          injection h with ht hs
          subst hs
          have hpos := matchStringLit_pos _ _ hm
          simp only [stepFuel, hsi, hi, List.length_drop, List.length_cons]
          simp only [Bool.false_eq_true, if_false]
          omega
      rw [if_neg h2] at h
      by_cases h3 : (isLetter c || decide (c = '_')) = true
      · rw [if_pos h3] at h
        injection h with ht hs
        subst hs
        simp only [stepFuel, hsi, hi, List.length_drop, List.length_cons]
        simp only [Bool.false_eq_true, if_false]
        omega
      rw [if_neg h3] at h
      by_cases h4 : c ∈ bracketOpens
      · rw [if_pos h4] at h
        injection h with ht hs
        subst hs
        simp only [stepFuel, hsi, hi, List.length_cons]
        simp only [Bool.false_eq_true, if_false]
        omega
      rw [if_neg h4] at h
      by_cases h5 : c ∈ bracketCloses
      · rw [if_pos h5] at h
        injection h with ht hs
        subst hs
        simp only [stepFuel, hsi, hi, List.length_cons]
        simp only [Bool.false_eq_true, if_false]
        omega
      rw [if_neg h5] at h
      by_cases h6 : c = '\n'
      · rw [if_pos h6] at h
        by_cases h6a : s.bracket_count = 0
        · rw [if_pos h6a] at h
          injection h with ht hs
          subst hs
          simp only [stepFuel, hsi, hi, List.length_cons]
          simp only [Bool.false_eq_true, if_false, if_true]
          omega
        · rw [if_neg h6a] at h
          injection h with ht hs
          subst hs
          simp only [stepFuel, hsi, hi, List.length_cons]
          simp only [Bool.false_eq_true, if_false]
          omega
      rw [if_neg h6] at h
      by_cases h7 : punctLen (c :: irest) ≠ 0
      · rw [if_pos h7] at h
        injection h with ht hs
        subst hs
        simp only [stepFuel, hsi, hi, List.length_drop, List.length_cons]
        simp only [Bool.false_eq_true, if_false]
        omega
      rw [if_neg h7] at h
      by_cases h8 : c = ' '
      · rw [if_pos h8] at h
        injection h with ht hs
        subst hs
        have hpos : 1 ≤ takeLen (fun ch => decide (ch = ' ')) (c :: irest) := by
          rw [takeLen, if_pos (by simp [h8])]
          omega
        simp only [stepFuel, hsi, hi, List.length_drop, List.length_cons]
        simp only [Bool.false_eq_true, if_false]
        omega
      rw [if_neg h8] at h
      by_cases h9 : c = '#'
      · rw [if_pos h9] at h
        by_cases h9a : s.bracket_count = 0
        · rw [if_pos h9a] at h
          injection h with ht hs
          subst hs
          simp only [stepFuel, hsi, hi, List.length_drop, List.length_cons]
          simp only [Bool.false_eq_true, if_false, if_true]
          omega
        · rw [if_neg h9a] at h
          injection h with ht hs
          subst hs
          simp only [stepFuel, hsi, hi, List.length_drop, List.length_cons]
          simp only [Bool.false_eq_true, if_false]
          omega
      rw [if_neg h9] at h
      simp only [reduceCtorEq] at h

/-- The scan loop is fuel-insensitive above the measure: `scan`'s fuel choice
is merely a termination bound, not an observable truncation. -/
theorem scanLoop_fuel (f1 : Nat) :
    ∀ (f2 : Nat) (s : RawState), stepFuel s < f1 → stepFuel s < f2 →
    scanLoop f1 s = scanLoop f2 s := by
  induction f1 with
  | zero =>
    intro f2 s h1 _
    exact absurd h1 (Nat.not_lt_zero _)
  | succ f ih =>
    intro f2 s h1 h2
    cases f2 with
    | zero => exact absurd h2 (Nat.not_lt_zero _)
    | succ g =>
      cases hstep : rawStep s with
      | emit ts s2 =>
        have hd := rawStep_emit_fuel s ts s2 hstep
        simp only [scanLoop, hstep]
        rw [ih g s2 (by omega) (by omega)]
      | fail e => simp only [scanLoop, hstep]
      | done ts => simp only [scanLoop, hstep]

end DslSpec
